import Mathlib

/-!
Shallow embedding of the download-dashboard frontend
(`src/frontend/src/App.tsx`, `src/frontend/src/observability.ts`) and, where
the repository ships only the frontend, a model of the backend job service
taken from the specification.

Modelling conventions:
* A JavaScript string is a `String` (processed as `List Char` where we need
  character-level behaviour).
* A JavaScript number is modelled by `Option ℚ` where `Number()`-style
  parsing can produce `NaN` or `±Infinity` (`none` stands for a non-finite
  value, `some q` for a finite value with exact rational arithmetic), and by
  plain `ℚ` where non-finite values cannot arise.  IEEE-754 rounding is not
  modelled: all arithmetic is exact.
* A JavaScript object used as a string-keyed map (`Record<string, T>`,
  `Map<string, T>`) is an association list `List (String × T)`; `jsSetKey`
  mirrors the JS update semantics (an existing key keeps its position, a new
  key is appended).
-/

namespace Frontend

/-- Characters matched by the `\s` class of the separator regex
`/[\s,]+/` in `parseFileIds` and by `String.prototype.trim` (the common
whitespace characters; exotic Unicode space code points behave alike). -/
def isJsWhitespace (c : Char) : Bool :=
  c = ' ' || c = '\t' || c = '\n' || c = '\r' ||
  c = '\x0b' || c = '\x0c' || c = ' '

/-- A character consumed by the separator regex `[\s,]+`. -/
def isSeparator (c : Char) : Bool :=
  c = ',' || isJsWhitespace c

/-- `String.prototype.trim`. -/
def jsTrim (cs : List Char) : List Char :=
  ((cs.dropWhile isJsWhitespace).reverse.dropWhile isJsWhitespace).reverse

/-- Scanner for `input.split(/[\s,]+/)`.  The second argument is `some tok`
while a token (held reversed) is being collected and `none` while inside a
run of separator characters (the regex consumes a maximal run at once). -/
def splitAux : List Char → Option (List Char) → List (List Char)
  | [], some tok => [tok.reverse]
  | [], none => [[]]
  | c :: cs, some tok =>
      if isSeparator c then tok.reverse :: splitAux cs none
      else splitAux cs (some (c :: tok))
  | c :: cs, none =>
      if isSeparator c then splitAux cs none
      else splitAux cs (some [c])

/-- `input.split(/[\s,]+/)`: splits at maximal runs of separator
characters; like the JS method it yields an empty token before a leading
run, after a trailing run, and `[""]` on the empty string. -/
def splitSep (cs : List Char) : List (List Char) :=
  splitAux cs (some [])

def isDecDigit (c : Char) : Bool := '0' ≤ c && c ≤ '9'

def decDigitVal (c : Char) : ℕ := c.toNat - '0'.toNat

/-- Value of a digit string in the given base (digits assumed valid). -/
def digitsVal (base : ℕ) (f : Char → ℕ) (ds : List Char) : ℕ :=
  ds.foldl (fun acc c => acc * base + f c) 0

def isHexDigit (c : Char) : Bool :=
  isDecDigit c || ('a' ≤ c && c ≤ 'f') || ('A' ≤ c && c ≤ 'F')

def hexDigitVal (c : Char) : ℕ :=
  if isDecDigit c then decDigitVal c
  else if 'a' ≤ c && c ≤ 'f' then c.toNat - 'a'.toNat + 10
  else c.toNat - 'A'.toNat + 10

def isBinDigit (c : Char) : Bool := c = '0' || c = '1'

def isOctDigit (c : Char) : Bool := '0' ≤ c && c ≤ '7'

/-- A finite JS number produced by `Number(string)`, kept in exact
scaled-decimal form: the value is `mant · 10 ^ exp`.  String-to-number
coercion of a numeric literal always yields such a value (before IEEE-754
rounding, which this model performs exactly instead). -/
structure Decimal where
  mant : ℤ
  exp : ℤ
  deriving DecidableEq, Repr

/-- The rational value of a scaled decimal. -/
def Decimal.toRat (d : Decimal) : ℚ := (d.mant : ℚ) * (10 : ℚ) ^ d.exp

/-- Order on scaled decimals by cross-multiplying to a common exponent;
agrees with `≤` on the rational values (`Decimal.le_iff`). -/
def Decimal.le (a b : Decimal) : Bool :=
  if a.exp ≤ b.exp then a.mant ≤ b.mant * 10 ^ (b.exp - a.exp).toNat
  else a.mant * 10 ^ (a.exp - b.exp).toNat ≤ b.mant

theorem Decimal.le_iff (a b : Decimal) :
    Decimal.le a b = true ↔ a.toRat ≤ b.toRat := by
  have hpow : ∀ e : ℤ, (0 : ℚ) < (10 : ℚ) ^ e := fun e => zpow_pos (by norm_num) e
  unfold Decimal.le Decimal.toRat
  by_cases h : a.exp ≤ b.exp
  · have hb : b.exp = a.exp + ((b.exp - a.exp).toNat : ℤ) := by omega
    rw [if_pos h, hb, zpow_add₀ (by norm_num : (10 : ℚ) ≠ 0), zpow_natCast]
    rw [show (b.mant : ℚ) * ((10 : ℚ) ^ a.exp * (10 : ℚ) ^ (b.exp - a.exp).toNat)
        = ((b.mant * 10 ^ (b.exp - a.exp).toNat : ℤ) : ℚ) * (10 : ℚ) ^ a.exp by
      push_cast; ring]
    rw [mul_le_mul_right (hpow a.exp), Int.cast_le, decide_eq_true_eq,
      show (a.exp + ((b.exp - a.exp).toNat : ℤ) - a.exp).toNat
        = (b.exp - a.exp).toNat by omega]
  · have ha : a.exp = b.exp + ((a.exp - b.exp).toNat : ℤ) := by omega
    rw [if_neg h, ha, zpow_add₀ (by norm_num : (10 : ℚ) ≠ 0), zpow_natCast]
    rw [show (a.mant : ℚ) * ((10 : ℚ) ^ b.exp * (10 : ℚ) ^ (a.exp - b.exp).toNat)
        = ((a.mant * 10 ^ (a.exp - b.exp).toNat : ℤ) : ℚ) * (10 : ℚ) ^ b.exp by
      push_cast; ring]
    rw [mul_le_mul_right (hpow b.exp), Int.cast_le, decide_eq_true_eq,
      show (b.exp + ((a.exp - b.exp).toNat : ℤ) - b.exp).toNat
        = (a.exp - b.exp).toNat by omega]

/-- Mantissa of a JS decimal numeric literal: `digits`, `digits.`,
`digits.digits` or `.digits`.  Returns the exact value and the unconsumed
remainder, or `none` when no mantissa is present. -/
def decMantissa (cs : List Char) : Option (Decimal × List Char) :=
  let ip := cs.takeWhile isDecDigit
  let r1 := cs.dropWhile isDecDigit
  match r1 with
  | '.' :: r2 =>
      let fp := r2.takeWhile isDecDigit
      let r3 := r2.dropWhile isDecDigit
      if ip.isEmpty && fp.isEmpty then none
      else
        some (⟨(digitsVal 10 decDigitVal ip : ℤ) * 10 ^ fp.length +
          (digitsVal 10 decDigitVal fp : ℤ), -(fp.length : ℤ)⟩, r3)
  | _ =>
      if ip.isEmpty then none
      else some (⟨(digitsVal 10 decDigitVal ip : ℤ), 0⟩, r1)

/-- The optional exponent part `[eE][+-]?digits` of a decimal literal;
`some e` when the remainder is exactly a (possibly absent) well-formed
exponent, `none` when the remainder makes the literal invalid (NaN). -/
def expPart (cs : List Char) : Option ℤ :=
  match cs with
  | [] => some 0
  | c :: r =>
      if c = 'e' || c = 'E' then
        let (sgn, r2) : ℤ × List Char :=
          match r with
          | '+' :: t => (1, t)
          | '-' :: t => (-1, t)
          | t => (1, t)
        let ds := r2.takeWhile isDecDigit
        if ds.isEmpty || !(r2.dropWhile isDecDigit).isEmpty then none
        else some (sgn * (digitsVal 10 decDigitVal ds : ℤ))
      else none

/-- An unsigned JS decimal literal `mantissa exponent?`. -/
def decLiteral (cs : List Char) : Option Decimal :=
  match decMantissa cs with
  | none => none
  | some (m, rest) =>
      match expPart rest with
      | none => none
      | some e => some ⟨m.mant, m.exp + e⟩

/-- A signed JS decimal literal. -/
def signedDecLiteral (cs : List Char) : Option Decimal :=
  match cs with
  | '+' :: t => decLiteral t
  | '-' :: t => (decLiteral t).map (fun d => ⟨-d.mant, d.exp⟩)
  | t => decLiteral t

/-- Radix-prefixed integer literal body (after `0x`/`0o`/`0b`). -/
def radixVal (valid : Char → Bool) (base : ℕ) (f : Char → ℕ)
    (ds : List Char) : Option Decimal :=
  if ds.isEmpty || !(ds.all valid) then none
  else some ⟨(digitsVal base f ds : ℤ), 0⟩

/-- JS `Number(string)` (string-to-number coercion).  `some d` is a finite
result with exact value `d.toRat`; `none` stands for a non-finite result
(`NaN` from an unparsable string, or `±Infinity`).  Exact decimal
arithmetic stands in for IEEE-754 doubles. -/
def toNumber (cs0 : List Char) : Option Decimal :=
  let cs := jsTrim cs0
  if cs.isEmpty then some ⟨0, 0⟩
  else if cs = "Infinity".toList || cs = "+Infinity".toList ||
      cs = "-Infinity".toList then none
  else
    match cs with
    | '0' :: 'x' :: ds => radixVal isHexDigit 16 hexDigitVal ds
    | '0' :: 'X' :: ds => radixVal isHexDigit 16 hexDigitVal ds
    | '0' :: 'o' :: ds => radixVal isOctDigit 8 decDigitVal ds
    | '0' :: 'O' :: ds => radixVal isOctDigit 8 decDigitVal ds
    | '0' :: 'b' :: ds => radixVal isBinDigit 2 decDigitVal ds
    | '0' :: 'B' :: ds => radixVal isBinDigit 2 decDigitVal ds
    | _ => signedDecLiteral cs

/-- The filter predicate of `parseFileIds`:
`Number.isFinite(num) && num >= 10000 && num <= 100000000`.
Comparisons against `NaN`/`±Infinity` (`none`) are `false`, as in JS. -/
def keepFileId (num : Option Decimal) : Bool :=
  num.isSome &&
    (match num with
     | some q => Decimal.le ⟨10000, 0⟩ q && Decimal.le q ⟨100000000, 0⟩
     | none => false)

/-- `parseFileIds` (App.tsx:77-81): split on `/[\s,]+/`, coerce each trimmed
token with `Number`, keep the finite values in `[10000, 100000000]`. -/
def parseFileIds (input : List Char) : List (Option Decimal) :=
  (((splitSep input).map (fun token => toNumber (jsTrim token))).filter keepFileId)

example : parseFileIds "".toList = [] := by decide

example : parseFileIds "70000, 71000, 72000".toList =
    [some ⟨70000, 0⟩, some ⟨71000, 0⟩, some ⟨72000, 0⟩] := by decide

example : parseFileIds "5, abc, 1e5".toList = [some ⟨1, 5⟩] := by decide

example : parseFileIds "12345.5".toList = [some ⟨123455, -1⟩] := by decide

/-- Claim C1, as stated, fails: `parseFileIds` never checks integrality,
so the token `"12345.5"` is accepted (it is finite and lies in
`[10000, 100000000]`) although its value `12345.5` is not an integer. -/
theorem parseFileIds_admits_noninteger :
    parseFileIds "12345.5".toList = [some ⟨123455, -1⟩] ∧
    (Decimal.mk 123455 (-1)).toRat = 24691 / 2 ∧
    ¬ ∃ n : ℤ, ((24691 : ℚ) / 2) = (n : ℚ) := by
  refine ⟨by decide, ?_, ?_⟩
  · norm_num [Decimal.toRat]
  · rintro ⟨n, hn⟩
    rw [div_eq_iff (by norm_num : (2 : ℚ) ≠ 0)] at hn
    have h : (24691 : ℤ) = n * 2 := by exact_mod_cast hn
    omega

/-- C1 (amended): for every input string, `parseFileIds` returns an ordered
subsequence of the `Number`-coercions of its comma/whitespace-separated
tokens, and every retained element is a finite number `q` with
`10000 ≤ q ≤ 100000000` (not necessarily an integer). -/
theorem parseFileIds_sublist_and_in_range (input : List Char) :
    (parseFileIds input).Sublist
      ((splitSep input).map (fun token => toNumber (jsTrim token))) ∧
    ∀ x ∈ parseFileIds input, ∃ d : Decimal, x = some d ∧
      (10000 : ℚ) ≤ d.toRat ∧ d.toRat ≤ (100000000 : ℚ) := by
  constructor
  · exact List.filter_sublist _
  · intro x hx
    rw [parseFileIds, List.mem_filter] at hx
    obtain ⟨-, hkeep⟩ := hx
    match x with
    | none => simp [keepFileId] at hkeep
    | some d =>
        refine ⟨d, rfl, ?_, ?_⟩
        · have h : Decimal.le ⟨10000, 0⟩ d = true := by
            simp only [keepFileId, Bool.and_eq_true] at hkeep
            exact hkeep.2.1
          have := (Decimal.le_iff ⟨10000, 0⟩ d).mp h
          simpa [Decimal.toRat] using this
        · have h : Decimal.le d ⟨100000000, 0⟩ = true := by
            simp only [keepFileId, Bool.and_eq_true] at hkeep
            exact hkeep.2.2
          have := (Decimal.le_iff d ⟨100000000, 0⟩).mp h
          simpa [Decimal.toRat] using this

/-! ### Data model of the dashboard (App.tsx:11-63) -/

inductive DownloadJobStatus where
  | queued | running | processing_artifacts
  | completed | failed | cancelled | expired
  deriving DecidableEq, Repr

inductive Priority where
  | standard | low
  deriving DecidableEq, Repr

/-- The `DownloadJob` record (App.tsx:20-38).  Plain JS numbers are `ℚ`;
nullable fields are `Option`; the submitted `fileIds` carry the
`parseFileIds` element type. -/
structure DownloadJob where
  jobId : String
  status : DownloadJobStatus
  progressPercent : ℚ
  message : String
  attempts : ℚ
  downloadUrl : Option String
  checksum : Option String
  size : Option ℚ
  retryAfterMs : Option ℚ
  fileIds : List (Option Decimal)
  priority : Priority
  userId : String
  createdAt : String
  startedAt : Option String
  completedAt : Option String
  expiresAt : String
  lastSyncedAt : ℚ
  deriving DecidableEq, Repr

inductive HealthKind where
  | healthy | unhealthy
  deriving DecidableEq, Repr

inductive StorageKind where
  | ok | error
  deriving DecidableEq, Repr

/-- The `HealthStatus` record (App.tsx:40-44). -/
structure HealthStatus where
  status : HealthKind
  storage : StorageKind
  checkedAt : String
  deriving DecidableEq, Repr

/-- The `RequestMetric` record (App.tsx:46-55). -/
structure RequestMetric where
  id : String
  endpoint : String
  method : String
  duration : ℚ
  status : ℚ
  success : Bool
  timestamp : String
  traceId : String
  deriving DecidableEq, Repr

/-- The `ErrorEvent` record (App.tsx:57-63). -/
structure ErrorEvent where
  id : String
  message : String
  traceId : Option String
  timestamp : String
  context : Option String
  deriving DecidableEq, Repr

/-! ### String-keyed JS objects / maps as association lists -/

def jsGetKey {α : Type _} (m : List (String × α)) (k : String) : Option α :=
  (m.find? (fun p => p.1 == k)).map Prod.snd

def jsHasKey {α : Type _} (m : List (String × α)) (k : String) : Bool :=
  m.any (fun p => p.1 == k)

/-- `{...prev, [k]: v}` on objects and `map.set(k, v)` on `Map`: an existing
key keeps its position, a new key is appended. -/
def jsSetKey {α : Type _} (m : List (String × α)) (k : String) (v : α) :
    List (String × α) :=
  if jsHasKey m k then m.map (fun p => if p.1 == k then (k, v) else p)
  else m ++ [(k, v)]

theorem jsGetKey_map_replace {α : Type _} (m : List (String × α))
    (k : String) (v : α) (j : String) :
    jsGetKey (m.map (fun p => if p.1 == k then (k, v) else p)) j =
      (m.find? (fun p => p.1 == j)).map (fun p => if p.1 == k then v else p.2) := by
  unfold jsGetKey
  rw [List.find?_map, Option.map_map]
  have h1 : ((fun p : String × α => p.1 == j) ∘
      (fun p => if p.1 == k then (k, v) else p)) =
      (fun p : String × α => p.1 == j) := by
    funext p
    by_cases h : p.1 = k <;> simp [h]
  have h2 : (Prod.snd ∘ (fun p : String × α => if p.1 == k then (k, v) else p)) =
      (fun p : String × α => if p.1 == k then v else p.2) := by
    funext p
    by_cases h : p.1 = k <;> simp [h]
  rw [h1, h2]

theorem jsGetKey_set_self {α : Type _} (m : List (String × α)) (k : String)
    (v : α) : jsGetKey (jsSetKey m k v) k = some v := by
  unfold jsSetKey
  by_cases h : jsHasKey m k
  · rw [if_pos h, jsGetKey_map_replace]
    simp only [jsHasKey, List.any_eq_true] at h
    obtain ⟨p, hp, hpk⟩ := h
    have hsome : (m.find? (fun p => p.1 == k)).isSome := by
      rw [List.find?_isSome]
      exact ⟨p, hp, hpk⟩
    obtain ⟨q, hq⟩ := Option.isSome_iff_exists.mp hsome
    have hqk := List.find?_some hq
    simp only [beq_iff_eq] at hqk
    rw [hq]
    simp [hqk]
  · rw [if_neg h]
    have hnone : m.find? (fun p => p.1 == k) = none := by
      rw [List.find?_eq_none]
      intro p hp
      simp only [jsHasKey, List.any_eq_true] at h
      intro hbeq
      exact h ⟨p, hp, hbeq⟩
    simp [jsGetKey, List.find?_append, hnone]

theorem jsGetKey_set_other {α : Type _} (m : List (String × α)) (k j : String)
    (v : α) (hjk : j ≠ k) : jsGetKey (jsSetKey m k v) j = jsGetKey m j := by
  unfold jsSetKey
  by_cases h : jsHasKey m k
  · rw [if_pos h, jsGetKey_map_replace]
    unfold jsGetKey
    cases hfind : m.find? (fun p => p.1 == j) with
    | none => simp
    | some q =>
        have hqj := List.find?_some hfind
        simp only [beq_iff_eq] at hqj
        have hqk : ¬ (q.1 = k) := by
          rw [hqj]; exact hjk
        simp [hqk]
  · rw [if_neg h]
    cases hfind : m.find? (fun p => p.1 == j) with
    | some p => simp [jsGetKey, List.find?_append, hfind]
    | none => simp [jsGetKey, List.find?_append, hfind, Ne.symm hjk]

theorem jsSetKey_keys_replace {α : Type _} (m : List (String × α))
    (k : String) (v : α) (h : jsHasKey m k = true) :
    (jsSetKey m k v).map Prod.fst = m.map Prod.fst := by
  unfold jsSetKey
  rw [if_pos h]
  rw [List.map_map]
  apply List.map_congr_left
  intro p _
  by_cases hp : p.1 = k <;> simp [hp]

theorem jsSetKey_mem {α : Type _} {m : List (String × α)} {k : String}
    {v : α} {p : String × α} (hp : p ∈ jsSetKey m k v) :
    p = (k, v) ∨ p ∈ m := by
  unfold jsSetKey at hp
  by_cases h : jsHasKey m k
  · rw [if_pos h] at hp
    obtain ⟨q, hq, hfq⟩ := List.mem_map.mp hp
    by_cases hqk : q.1 = k
    · left; rw [← hfq]; simp [hqk]
    · right; rw [← hfq]; simpa [hqk] using hq
  · rw [if_neg h] at hp
    rcases List.mem_append.mp hp with h' | h'
    · right; exact h'
    · left; simpa using h'

/-! ### Status polling (App.tsx:70-75, 290-326) -/

/-- `terminalStatuses` (App.tsx:70-75). -/
def terminalStatuses : List DownloadJobStatus :=
  [.completed, .failed, .cancelled, .expired]

/-- `pendingJobIds` (App.tsx:290-296): the ids of the jobs in the map whose
status is not in `terminalStatuses`; the 5-second polling effect issues one
status request per element of this list on each tick. -/
def pendingJobIds (jobs : List (String × DownloadJob)) : List String :=
  ((jobs.map Prod.snd).filter
    (fun job => !(terminalStatuses.contains job.status))).map
    (fun job => job.jobId)

/-- Well-formedness of the job map: every record is stored under its own
`jobId`, and keys are unique (a JS object cannot have duplicate keys). -/
def JobsWF (jobs : List (String × DownloadJob)) : Prop :=
  (∀ p ∈ jobs, p.2.jobId = p.1) ∧ (jobs.map Prod.fst).Nodup

theorem jsGetKey_mem {α : Type _} {m : List (String × α)} {k : String}
    {v : α} (h : jsGetKey m k = some v) : (k, v) ∈ m := by
  unfold jsGetKey at h
  cases hfind : m.find? (fun p => p.1 == k) with
  | none => rw [hfind] at h; simp at h
  | some q =>
      rw [hfind] at h
      have hqk := List.find?_some hfind
      simp only [beq_iff_eq] at hqk
      have hmem := List.mem_of_find?_eq_some hfind
      simp only [Option.map, Option.some.injEq] at h
      have : (k, v) = q := by
        rw [← hqk, ← h]
      rw [this]
      exact hmem

theorem jsGetKey_of_mem {α : Type _} {m : List (String × α)} {k : String}
    {v : α} (hn : (m.map Prod.fst).Nodup) (hm : (k, v) ∈ m) :
    jsGetKey m k = some v := by
  induction m with
  | nil => simp at hm
  | cons p rest ih =>
      simp only [List.map_cons, List.nodup_cons] at hn
      rcases List.mem_cons.mp hm with h | h
      · rw [← h]
        simp [jsGetKey, List.find?]
      · have hpk : ¬ (p.1 = k) := by
          intro hpk
          apply hn.1
          rw [hpk]
          exact List.mem_map.mpr ⟨(k, v), h, rfl⟩
        simp only [jsGetKey, List.find?, show (p.1 == k) = false by
          simpa using hpk]
        exact ih hn.2 h

/-- A job id is pending exactly when its record is present and
non-terminal. -/
theorem mem_pendingJobIds {jobs : List (String × DownloadJob)} {j : String}
    (hwf : JobsWF jobs) :
    j ∈ pendingJobIds jobs ↔
      ∃ job, jsGetKey jobs j = some job ∧ job.status ∉ terminalStatuses := by
  constructor
  · intro hj
    obtain ⟨job, hjob, hjid⟩ := List.mem_map.mp hj
    have hfil := List.mem_filter.mp hjob
    obtain ⟨p, hp, hps⟩ := List.mem_map.mp hfil.1
    have hkey : p.1 = j := by
      rw [← hwf.1 p hp, hps, hjid]
    refine ⟨job, ?_, ?_⟩
    · apply jsGetKey_of_mem hwf.2
      have : p = (j, job) := by
        rw [Prod.ext_iff]; exact ⟨hkey, hps⟩
      rw [← this]; exact hp
    · intro hmem
      have := hfil.2
      rw [Bool.not_eq_eq_eq_not, Bool.not_true] at this
      have hnot : job.status ∉ terminalStatuses := by simpa using this
      exact hnot hmem
  · rintro ⟨job, hget, hterm⟩
    have hmem := jsGetKey_mem hget
    apply List.mem_map.mpr
    refine ⟨job, ?_, hwf.1 (j, job) hmem⟩
    apply List.mem_filter.mpr
    refine ⟨List.mem_map.mpr ⟨(j, job), hmem, rfl⟩, ?_⟩
    rw [Bool.not_eq_eq_eq_not, Bool.not_true]
    simpa using hterm

/-- One iteration of the polling loop body for one job id
(App.tsx:301-316): on a successful response the map entry is replaced by
the server snapshot with a fresh `lastSyncedAt`; on a failed request the
map is untouched. -/
def pollStepFn (responses : String → Option DownloadJob) (nowMs : ℚ)
    (acc : List (String × DownloadJob)) (jobId : String) :
    List (String × DownloadJob) :=
  match responses jobId with
  | some data => jsSetKey acc jobId { data with lastSyncedAt := nowMs }
  | none => acc

/-- One 5-second tick of the polling effect (App.tsx:298-326): a status
request for every pending id, each merged back into the map. -/
def pollTick (responses : String → Option DownloadJob) (nowMs : ℚ)
    (jobs : List (String × DownloadJob)) : List (String × DownloadJob) :=
  (pendingJobIds jobs).foldl (pollStepFn responses nowMs) jobs

/-- The id lists the polling effect requests on each successive tick. -/
def pollTrace (steps : List ((String → Option DownloadJob) × ℚ))
    (jobs : List (String × DownloadJob)) : List (List String) :=
  match steps with
  | [] => []
  | (resp, now) :: rest => pendingJobIds jobs :: pollTrace rest (pollTick resp now jobs)

/-- A server response for a status request carries the queried job id. -/
def GoodStep (responses : String → Option DownloadJob) : Prop :=
  ∀ id job, responses id = some job → job.jobId = id

def GoodResponses (steps : List ((String → Option DownloadJob) × ℚ)) : Prop :=
  ∀ s ∈ steps, GoodStep s.1

theorem jsSetKey_wf {m : List (String × DownloadJob)} {k : String}
    {v : DownloadJob} (hwf : JobsWF m) (hv : v.jobId = k) :
    JobsWF (jsSetKey m k v) := by
  constructor
  · intro p hp
    rcases jsSetKey_mem hp with h | h
    · rw [h]; exact hv
    · exact hwf.1 p h
  · unfold jsSetKey
    by_cases h : jsHasKey m k
    · rw [if_pos h]
      have := jsSetKey_keys_replace m k v h
      unfold jsSetKey at this
      rw [if_pos h] at this
      rw [this]
      exact hwf.2
    · rw [if_neg h]
      rw [List.map_append]
      simp only [List.map_cons, List.map_nil]
      rw [List.nodup_append]
      refine ⟨hwf.2, List.nodup_singleton k, ?_⟩
      intro a ha hb
      simp only [List.mem_singleton] at hb
      obtain ⟨p, hp, hpa⟩ := List.mem_map.mp ha
      simp only [jsHasKey, List.any_eq_true, not_exists, not_and,
        Bool.not_eq_true] at h
      have := h p hp
      rw [hpa, hb] at this
      simp at this

theorem foldl_pollStepFn_get {r : String → Option DownloadJob} {n : ℚ}
    {j : String} :
    ∀ (ids : List String) (acc : List (String × DownloadJob)), j ∉ ids →
      jsGetKey (ids.foldl (pollStepFn r n) acc) j = jsGetKey acc j := by
  intro ids
  induction ids with
  | nil => intro acc _; rfl
  | cons id rest ih =>
      intro acc hj
      have hne : j ≠ id := fun h => hj (h ▸ List.mem_cons_self id rest)
      have hrest : j ∉ rest := fun h => hj (List.mem_cons_of_mem id h)
      rw [List.foldl_cons, ih _ hrest]
      unfold pollStepFn
      cases r id with
      | some data => exact jsGetKey_set_other _ _ _ _ hne
      | none => rfl

theorem foldl_pollStepFn_wf {r : String → Option DownloadJob} {n : ℚ}
    (hr : GoodStep r) :
    ∀ (ids : List String) (acc : List (String × DownloadJob)), JobsWF acc →
      JobsWF (ids.foldl (pollStepFn r n) acc) := by
  intro ids
  induction ids with
  | nil => intro acc h; exact h
  | cons id rest ih =>
      intro acc hacc
      rw [List.foldl_cons]
      apply ih
      unfold pollStepFn
      cases hres : r id with
      | some data => exact jsSetKey_wf hacc (hr id data hres)
      | none => exact hacc

theorem pollTick_preserves {r : String → Option DownloadJob} {n : ℚ}
    {jobs : List (String × DownloadJob)} {j : String} {job : DownloadJob}
    (hwf : JobsWF jobs) (hr : GoodStep r)
    (hget : jsGetKey jobs j = some job)
    (hterm : job.status ∈ terminalStatuses) :
    JobsWF (pollTick r n jobs) ∧
      jsGetKey (pollTick r n jobs) j = some job ∧
      j ∉ pendingJobIds jobs := by
  have hnp : j ∉ pendingJobIds jobs := by
    intro hj
    obtain ⟨job', hget', hterm'⟩ := (mem_pendingJobIds hwf).mp hj
    rw [hget] at hget'
    have : job = job' := by
      injection hget'
    exact hterm' (this ▸ hterm)
  refine ⟨foldl_pollStepFn_wf hr _ _ hwf, ?_, hnp⟩
  rw [pollTick, foldl_pollStepFn_get _ _ hnp]
  exact hget

/-- C2: the frontend terminal-status set is exactly
`{completed, failed, cancelled, expired}`; on each 5-second tick the
polling effect issues a status request for a job id iff that id's record in
the job map has a non-terminal status; and once a record is terminal, no
tick of the polling loop ever requests its status again. -/
theorem polling_requests_iff_nonterminal :
    terminalStatuses =
      [.completed, .failed, .cancelled, .expired] ∧
    (∀ (jobs : List (String × DownloadJob)) (j : String), JobsWF jobs →
      (j ∈ pendingJobIds jobs ↔
        ∃ job, jsGetKey jobs j = some job ∧
          job.status ∉ terminalStatuses)) ∧
    (∀ (steps : List ((String → Option DownloadJob) × ℚ))
        (jobs : List (String × DownloadJob)) (j : String) (job : DownloadJob),
      JobsWF jobs → GoodResponses steps →
      jsGetKey jobs j = some job → job.status ∈ terminalStatuses →
      ∀ polled ∈ pollTrace steps jobs, j ∉ polled) := by
  refine ⟨rfl, fun jobs j hwf => mem_pendingJobIds hwf, ?_⟩
  intro steps
  induction steps with
  | nil => intro jobs j job _ _ _ _ polled hpolled; simp [pollTrace] at hpolled
  | cons step rest ih =>
      intro jobs j job hwf hgood hget hterm polled hpolled
      obtain ⟨resp, now⟩ := step
      have hstep : GoodStep resp := hgood (resp, now) (List.mem_cons_self _ _)
      obtain ⟨hwf', hget', hnp⟩ :=
        pollTick_preserves (r := resp) (n := now) hwf hstep hget hterm
      rw [pollTrace] at hpolled
      rcases List.mem_cons.mp hpolled with h | h
      · rw [h]; exact hnp
      · exact ih _ j job hwf'
          (fun s hs => hgood s (List.mem_cons_of_mem _ hs)) hget' hterm polled h

/-- A concrete completed job used to exercise the polling theorem. -/
def sampleTerminalJob : DownloadJob :=
  { jobId := "a", status := .completed, progressPercent := 100,
    message := "done", attempts := 1, downloadUrl := some "u",
    checksum := none, size := none, retryAfterMs := none, fileIds := [],
    priority := .standard, userId := "u1", createdAt := "t0",
    startedAt := none, completedAt := some "t1", expiresAt := "t2",
    lastSyncedAt := 0 }

theorem polling_requests_iff_nonterminal_witness :
    ("a" ∈ pendingJobIds [("a", sampleTerminalJob)] ↔
      ∃ job, jsGetKey [("a", sampleTerminalJob)] "a" = some job ∧
        job.status ∉ terminalStatuses) ∧
    ∀ polled ∈ pollTrace [((fun _ => none), 0), ((fun _ => none), 5000)]
        [("a", sampleTerminalJob)], "a" ∉ polled := by
  have hwf : JobsWF [("a", sampleTerminalJob)] := by
    constructor
    · intro p hp
      rw [List.mem_singleton] at hp
      rw [hp]
      rfl
    · simp
  have hgood : GoodResponses [((fun _ => none), 0), ((fun _ => none), 5000)] := by
    intro s hs id job h
    rcases List.mem_cons.mp hs with h' | h' <;>
      · first
        | (rw [h'] at h; simp at h)
        | (rw [List.mem_singleton] at h'; rw [h'] at h; simp at h)
  have hget : jsGetKey [("a", sampleTerminalJob)] "a" = some sampleTerminalJob := by
    rfl
  have hterm : sampleTerminalJob.status ∈ terminalStatuses := by decide
  exact ⟨polling_requests_iff_nonterminal.2.1 [("a", sampleTerminalJob)] "a" hwf,
    polling_requests_iff_nonterminal.2.2 _ _ "a" sampleTerminalJob hwf hgood hget hterm⟩

/-! ### Metric and error feeds (App.tsx:93-125) -/

/-- `recordMetric` (App.tsx:93-108): prepend the new entry (already
extended with a fresh `id` and `timestamp` by the caller side modelled in
the record) and keep the first 30. -/
def recordMetric (metric : RequestMetric) (prev : List RequestMetric) :
    List RequestMetric :=
  (metric :: prev).take 30

/-- `recordError` (App.tsx:110-125): prepend the new event and keep the
first 20. -/
def recordError (event : ErrorEvent) (prev : List ErrorEvent) :
    List ErrorEvent :=
  (event :: prev).take 20

/-! ### Download initiation (App.tsx:198-271) -/

/-- Successful body of `POST /v1/download/initiate` as the frontend reads
it (App.tsx:214-219). -/
structure InitiatePayload where
  jobId : String
  status : DownloadJobStatus
  expiresAt : String
  totalFileIds : ℚ
  deriving DecidableEq, Repr

/-- The JSON body sent by `handleDownloadInitiation` (App.tsx:226-230). -/
structure InitiateBody where
  file_ids : List (Option Decimal)
  clientRequestId : String
  userId : String
  deriving DecidableEq, Repr

/-- An HTTP request issued by the component. -/
structure HttpRequest where
  method : String
  path : String
  body : Option InitiateBody
  deriving DecidableEq, Repr

/-- The component state touched by the handlers. -/
structure AppState where
  jobs : List (String × DownloadJob)
  health : Option HealthStatus
  isSubmitting : Bool
  initiateError : Option String
  metrics : List RequestMetric
  errorEvents : List ErrorEvent
  lastTraceId : Option String
  deriving Repr

def initiateErrorMessage : String :=
  "Please enter at least one file ID between 10,000 and 100,000,000."

/-- `handleDownloadInitiation` (App.tsx:198-271).  `uuid` is the
`crypto.randomUUID()` client request id, `nowIso`/`nowMs` the wall clock,
`resp` the outcome of the initiate request (`none` = the request threw or
returned non-2xx), `errId`/`errTs` the fresh id/timestamp `recordError`
generates and `errMsg` the error text in the failure branch.  Returns the
new state and the list of HTTP requests issued. -/
def handleDownloadInitiation (fileIds : List (Option Decimal)) (uuid : String)
    (nowIso : String) (nowMs : ℚ) (resp : Option InitiatePayload)
    (errId errTs errMsg : String) (st : AppState) :
    AppState × List HttpRequest :=
  if fileIds.length = 0 then
    ({ st with initiateError := some initiateErrorMessage }, [])
  else
    let st1 := { st with initiateError := none, isSubmitting := true }
    let req : HttpRequest :=
      { method := "POST", path := "/v1/download/initiate",
        body := some ({ file_ids := fileIds,
                        clientRequestId := uuid,
                        userId := "observability-demo-user" } : InitiateBody) }
    match resp with
    | some payload =>
        let job : DownloadJob :=
          { jobId := payload.jobId, status := payload.status,
            progressPercent := 0, message := "Queued for processing",
            attempts := 0, downloadUrl := none, checksum := none,
            size := none, retryAfterMs := none, fileIds := fileIds,
            priority := .standard, userId := "observability-demo-user",
            createdAt := nowIso, startedAt := none, completedAt := none,
            expiresAt := payload.expiresAt, lastSyncedAt := nowMs }
        ({ st1 with jobs := jsSetKey st1.jobs payload.jobId job,
                    isSubmitting := false }, [req])
    | none =>
        ({ st1 with
            errorEvents := recordError
              { id := errId, message := "Download initiation failed",
                traceId := none, timestamp := errTs, context := some errMsg }
              st1.errorEvents,
            isSubmitting := false }, [req])

/-- C3: with an empty parsed file-id list, `handleDownloadInitiation` only
sets the validation error message: it issues no HTTP request and leaves
the job map (and every other state field) unchanged. -/
theorem initiation_empty_list_validation :
    ∀ (uuid nowIso : String) (nowMs : ℚ) (resp : Option InitiatePayload)
      (errId errTs errMsg : String) (st : AppState),
      handleDownloadInitiation [] uuid nowIso nowMs resp errId errTs errMsg st =
        ({ st with initiateError := some initiateErrorMessage }, []) ∧
      (handleDownloadInitiation [] uuid nowIso nowMs resp errId errTs errMsg
        st).1.jobs = st.jobs := by
  intro uuid nowIso nowMs resp errId errTs errMsg st
  constructor <;> rfl

/-- C4: with a non-empty file-id list, `handleDownloadInitiation` issues
exactly one request, `POST /v1/download/initiate`, whose body carries the
submitted list as `file_ids` together with the client request id and user
id; on a successful response, the job map gains (under the returned
`jobId`) a record with the returned `status` and `expiresAt`,
`progressPercent = 0`, `attempts = 0` and `fileIds` equal to the submitted
list. -/
theorem initiation_nonempty_posts_and_records
    (fileIds : List (Option Decimal)) (uuid nowIso : String) (nowMs : ℚ)
    (payload : InitiatePayload) (errId errTs errMsg : String) (st : AppState)
    (h : fileIds ≠ []) :
    (handleDownloadInitiation fileIds uuid nowIso nowMs (some payload)
        errId errTs errMsg st).2 =
      [{ method := "POST", path := "/v1/download/initiate",
         body := some ({ file_ids := fileIds,
                         clientRequestId := uuid,
                         userId := "observability-demo-user" } : InitiateBody) }] ∧
    ∃ job : DownloadJob,
      jsGetKey (handleDownloadInitiation fileIds uuid nowIso nowMs
          (some payload) errId errTs errMsg st).1.jobs payload.jobId =
        some job ∧
      job.status = payload.status ∧ job.expiresAt = payload.expiresAt ∧
      job.progressPercent = 0 ∧ job.attempts = 0 ∧ job.fileIds = fileIds := by
  have hlen : ¬ (fileIds.length = 0) := by
    intro h0
    exact h (List.length_eq_zero.mp h0)
  unfold handleDownloadInitiation
  rw [if_neg hlen]
  dsimp only
  exact ⟨rfl, _, jsGetKey_set_self _ _ _, rfl, rfl, rfl, rfl, rfl⟩

/-- A concrete component state to exercise theorems with hypotheses. -/
def emptyState : AppState :=
  { jobs := [], health := none, isSubmitting := false, initiateError := none,
    metrics := [], errorEvents := [], lastTraceId := none }

theorem initiation_nonempty_posts_and_records_witness :
    ([some (Decimal.mk 70000 0)] ≠ ([] : List (Option Decimal))) ∧
    ((handleDownloadInitiation [some ⟨70000, 0⟩] "uuid-1" "t0" 0
        (some { jobId := "j1", status := .queued, expiresAt := "t9",
                totalFileIds := 1 }) "e" "t" "m" emptyState).2 =
      [{ method := "POST", path := "/v1/download/initiate",
         body := some ({ file_ids := [some ⟨70000, 0⟩],
                         clientRequestId := "uuid-1",
                         userId := "observability-demo-user" } : InitiateBody) }] ∧
    ∃ job : DownloadJob,
      jsGetKey (handleDownloadInitiation [some ⟨70000, 0⟩] "uuid-1" "t0" 0
          (some { jobId := "j1", status := .queued, expiresAt := "t9",
                  totalFileIds := 1 }) "e" "t" "m" emptyState).1.jobs "j1" =
        some job ∧
      job.status = .queued ∧ job.expiresAt = "t9" ∧
      job.progressPercent = 0 ∧ job.attempts = 0 ∧
      job.fileIds = [some ⟨70000, 0⟩]) :=
  ⟨by simp,
   initiation_nonempty_posts_and_records [some ⟨70000, 0⟩] "uuid-1" "t0" 0
     { jobId := "j1", status := .queued, expiresAt := "t9", totalFileIds := 1 }
     "e" "t" "m" emptyState (by simp)⟩

/-! ### Download action (App.tsx:283-288, 631-635) -/

/-- The render condition of the Download button (App.tsx:631):
`job.status === "completed" && job.downloadUrl` — JS truthiness of a
string, so `null` and the empty string both fail the test. -/
def showDownloadAction (job : DownloadJob) : Bool :=
  (job.status == .completed) &&
    (match job.downloadUrl with
     | some url => !(url == "")
     | none => false)

/-- `handleDownload` (App.tsx:283-288): the URL opened for a job. -/
def handleDownloadUrl (apiBaseUrl : String) (job : DownloadJob) : String :=
  apiBaseUrl ++ "/v1/download/" ++ job.jobId ++ "?format=json"

/-- `API_BASE_URL` (App.tsx:65-66). -/
def apiBaseUrl (env : Option String) : String :=
  env.getD "http://localhost:3000"

/-- A completed job whose `downloadUrl` is the empty string. -/
def emptyUrlJob : DownloadJob :=
  { sampleTerminalJob with downloadUrl := some "" }

/-- Claim C6, as stated, fails: for a completed job whose `downloadUrl` is
the empty string (non-null), the Download action is not rendered, because
the JSX guard tests JS truthiness, which the empty string fails. -/
theorem download_action_empty_string_counterexample :
    emptyUrlJob.status = .completed ∧ emptyUrlJob.downloadUrl ≠ none ∧
    showDownloadAction emptyUrlJob = false := by
  refine ⟨rfl, ?_, rfl⟩
  intro h
  simp [emptyUrlJob, sampleTerminalJob] at h

/-- C6 (amended): the Download action is rendered for a job iff its status
is `completed` and its `downloadUrl` is non-null **and non-empty** (JS
truthiness); activating it requests exactly
`${API_BASE_URL}/v1/download/${jobId}?format=json`, the JSON variant of
Resolve. -/
theorem download_action_iff_and_url (job : DownloadJob) (env : Option String) :
    (showDownloadAction job = true ↔
      job.status = .completed ∧
        ∃ url, job.downloadUrl = some url ∧ url ≠ "") ∧
    handleDownloadUrl (apiBaseUrl env) job =
      apiBaseUrl env ++ "/v1/download/" ++ job.jobId ++ "?format=json" := by
  refine ⟨?_, rfl⟩
  unfold showDownloadAction
  constructor
  · intro h
    rw [Bool.and_eq_true] at h
    refine ⟨by simpa using h.1, ?_⟩
    cases hurl : job.downloadUrl with
    | none => rw [hurl] at h; simp at h
    | some url =>
        rw [hurl] at h
        refine ⟨url, rfl, ?_⟩
        have := h.2
        simp only [Bool.not_eq_eq_eq_not, Bool.not_true, beq_eq_false_iff_ne,
          ne_eq] at this
        exact this
  · rintro ⟨hstat, url, hurl, hne⟩
    rw [hstat, hurl]
    simp [hne]

/-! ### Health polling (App.tsx:176-190) -/

structure HealthChecks where
  storage : StorageKind
  deriving DecidableEq, Repr

/-- The `/health` response body as the frontend reads it
(App.tsx:178-181). -/
structure HealthResponse where
  status : HealthKind
  checks : HealthChecks
  deriving DecidableEq, Repr

/-- `pollHealth` (App.tsx:176-190), restricted to the `health` state field
it manages: on a successful response it stores the body's `status` and
`checks.storage` unchanged (with a fresh `checkedAt`); when the request
throws (network failure or non-2xx, both raised by `requestJson`), the
`catch` only reports the error and the stored health state is untouched. -/
def pollHealth (resp : Option HealthResponse) (nowIso : String)
    (health : Option HealthStatus) : Option HealthStatus :=
  match resp with
  | some data =>
      some { status := data.status, storage := data.checks.storage,
             checkedAt := nowIso }
  | none => health

/-- C7: a successful `/health` response is stored with `status` and
`storage` copied unmodified from the body; a failed request leaves the
previously stored health state unmodified. -/
theorem pollHealth_stores_or_preserves :
    (∀ (data : HealthResponse) (nowIso : String)
        (health : Option HealthStatus),
      pollHealth (some data) nowIso health =
        some { status := data.status, storage := data.checks.storage,
               checkedAt := nowIso }) ∧
    (∀ (nowIso : String) (health : Option HealthStatus),
      pollHealth none nowIso health = health) := by
  exact ⟨fun _ _ _ => rfl, fun _ _ => rfl⟩

/-- C8: `recordMetric` prepends the fresh entry and truncates to 30;
`recordError` prepends and truncates to 20.  In both cases the newest
entry is at the front and the retained older entries are an unreordered
prefix of the previous list. -/
theorem record_feeds_bounded :
    (∀ (m : RequestMetric) (prev : List RequestMetric),
      recordMetric m prev = m :: prev.take 29 ∧
        (recordMetric m prev).length ≤ 30) ∧
    (∀ (e : ErrorEvent) (prev : List ErrorEvent),
      recordError e prev = e :: prev.take 19 ∧
        (recordError e prev).length ≤ 20) := by
  constructor
  · intro m prev
    refine ⟨rfl, ?_⟩
    simp only [recordMetric, List.length_take, List.length_cons]
    omega
  · intro e prev
    refine ⟨rfl, ?_⟩
    simp only [recordError, List.length_take, List.length_cons]
    omega

end Frontend

namespace Observability

/-! ### `instrumentedFetch` (observability.ts:80-132) -/

inductive SpanStatusCode where
  | ok | error
  deriving DecidableEq, Repr

/-- The observable history of one span created by `instrumentedFetch`. -/
structure SpanRecord where
  name : String
  httpUrl : String
  httpMethod : String
  statusCode : Option SpanStatusCode
  statusMessage : Option String
  statusSetCount : ℕ
  httpStatusAttr : Option ℚ
  exceptions : List String
  endCount : ℕ
  deriving DecidableEq, Repr

structure ResponseInfo where
  ok : Bool
  status : ℚ
  deriving DecidableEq, Repr

/-- Outcome of the underlying `fetch` promise. -/
inductive FetchOutcome where
  | resolved (response : ResponseInfo)
  | rejected (err : String)
  deriving DecidableEq, Repr

/-- Everything observable about one `instrumentedFetch` call. -/
structure FetchRun where
  span : SpanRecord
  sentryExceptions : List String
  onRecordCalls : ℕ
  result : (ResponseInfo × String) ⊕ String
  deriving DecidableEq, Repr

/-- `instrumentedFetch` (observability.ts:80-132) as a function of the
fetch outcome.  The `try` branch sets the `http.status_code` attribute,
sets the span status (`OK` when the response is ok or `ignoreErrors` is
set, `ERROR` otherwise), invokes `onRecord` if provided and returns
`{response, traceId, duration}` (`.inl`); the `catch` branch records the
exception on the span, sets status `ERROR` with the message, reports to
Sentry and re-throws (`.inr`); the `finally` branch ends the span once on
every path. -/
def instrumentedFetch (outcome : FetchOutcome) (ignoreErrors : Bool)
    (spanName url method traceId : String) (hasOnRecord : Bool) : FetchRun :=
  let span0 : SpanRecord :=
    { name := spanName, httpUrl := url, httpMethod := method,
      statusCode := none, statusMessage := none, statusSetCount := 0,
      httpStatusAttr := none, exceptions := [], endCount := 0 }
  match outcome with
  | .resolved res =>
      let span1 := { span0 with httpStatusAttr := some res.status }
      let span2 := { span1 with
        statusCode := some (if res.ok || ignoreErrors then .ok else .error),
        statusSetCount := span1.statusSetCount + 1 }
      let span3 := { span2 with endCount := span2.endCount + 1 }
      { span := span3, sentryExceptions := [],
        onRecordCalls := if hasOnRecord then 1 else 0,
        result := .inl (res, traceId) }
  | .rejected err =>
      let span1 := { span0 with exceptions := span0.exceptions ++ [err] }
      let span2 := { span1 with
        statusCode := some .error,
        statusMessage := some err,
        statusSetCount := span1.statusSetCount + 1 }
      let span3 := { span2 with endCount := span2.endCount + 1 }
      { span := span3, sentryExceptions := [err], onRecordCalls := 0,
        result := .inr err }

/-- C10: on every `instrumentedFetch` call the span is ended exactly once,
whether the fetch resolves or rejects; the span status is `ERROR` iff the
fetch threw, or the response was not ok while `ignoreErrors` is unset;
and on a throw the exception is recorded on the span, reported to Sentry,
and re-thrown unchanged. -/
theorem instrumentedFetch_span_discipline (outcome : FetchOutcome)
    (ignoreErrors : Bool) (spanName url method traceId : String)
    (hasOnRecord : Bool) :
    (instrumentedFetch outcome ignoreErrors spanName url method traceId
      hasOnRecord).span.endCount = 1 ∧
    ((instrumentedFetch outcome ignoreErrors spanName url method traceId
        hasOnRecord).span.statusCode = some .error ↔
      (match outcome with
       | .rejected _ => True
       | .resolved res => res.ok = false ∧ ignoreErrors = false)) ∧
    (match outcome with
     | .rejected err =>
        (instrumentedFetch outcome ignoreErrors spanName url method traceId
          hasOnRecord).span.exceptions = [err] ∧
        (instrumentedFetch outcome ignoreErrors spanName url method traceId
          hasOnRecord).sentryExceptions = [err] ∧
        (instrumentedFetch outcome ignoreErrors spanName url method traceId
          hasOnRecord).result = .inr err
     | .resolved res =>
        (instrumentedFetch outcome ignoreErrors spanName url method traceId
          hasOnRecord).sentryExceptions = [] ∧
        (instrumentedFetch outcome ignoreErrors spanName url method traceId
          hasOnRecord).result = .inl (res, traceId)) := by
  cases outcome with
  | resolved res =>
      refine ⟨rfl, ?_, rfl, rfl⟩
      cases hok : res.ok <;> cases hig : ignoreErrors <;>
        simp [instrumentedFetch, hok, hig]
  | rejected err =>
      exact ⟨rfl, by simp [instrumentedFetch], rfl, rfl, rfl⟩

end Observability

namespace Frontend
/-! ### Metrics summary (App.tsx:365-393) -/

/-- A row of the metrics summary table (App.tsx:366-375). -/
structure SummaryRow where
  endpoint : String
  method : String
  avg : ℚ
  count : ℚ
  successCount : ℚ
  deriving DecidableEq, Repr

/-- The `Map` key `` `${metric.method} ${metric.endpoint}` ``
(App.tsx:378). -/
def summaryKey (method endpoint : String) : String :=
  method ++ " " ++ endpoint

/-- One `metrics.forEach` iteration of `metricsSummary`
(App.tsx:377-390). -/
def summaryStep (summary : List (String × SummaryRow))
    (metric : RequestMetric) : List (String × SummaryRow) :=
  let key := summaryKey metric.method metric.endpoint
  let current := (jsGetKey summary key).getD
    { endpoint := metric.endpoint, method := metric.method, avg := 0,
      count := 0, successCount := 0 }
  let c1 := { current with count := current.count + 1 }
  let c2 := { c1 with avg := c1.avg + (metric.duration - c1.avg) / c1.count }
  let c3 := if metric.success then
    { c2 with successCount := c2.successCount + 1 } else c2
  jsSetKey summary key c3

/-- `metricsSummary` (App.tsx:365-393): fold the metrics into the keyed
map and return its values. -/
def metricsSummary (metrics : List RequestMetric) : List SummaryRow :=
  (metrics.foldl summaryStep []).map Prod.snd

/-- The metrics sharing a given `Map` key. -/
def keyGroup (k : String) (metrics : List RequestMetric) :
    List RequestMetric :=
  metrics.filter (fun m => summaryKey m.method m.endpoint == k)

theorem jsSetKey_mem_strong {α : Type _} {m : List (String × α)} {k : String}
    {v : α} {p : String × α} (hp : p ∈ jsSetKey m k v) :
    p = (k, v) ∨ (p ∈ m ∧ p.1 ≠ k) := by
  unfold jsSetKey at hp
  by_cases h : jsHasKey m k
  · rw [if_pos h] at hp
    obtain ⟨q, hq, hfq⟩ := List.mem_map.mp hp
    by_cases hqk : q.1 = k
    · left; rw [← hfq]; simp [hqk]
    · right
      constructor
      · rw [← hfq]; simpa [hqk] using hq
      · rw [← hfq]; simp [hqk]
  · rw [if_neg h] at hp
    rcases List.mem_append.mp hp with h' | h'
    · right
      refine ⟨h', ?_⟩
      simp only [jsHasKey, List.any_eq_true, not_exists, not_and,
        Bool.not_eq_true] at h
      have := h p h'
      simpa using this
    · left; simpa using h'

theorem jsHasKey_of_get_some {α : Type _} {m : List (String × α)}
    {k : String} {v : α} (h : jsGetKey m k = some v) :
    jsHasKey m k = true := by
  have hmem := jsGetKey_mem h
  simp only [jsHasKey, List.any_eq_true]
  exact ⟨(k, v), hmem, by simp⟩

theorem jsGetKey_none_forall {α : Type _} {m : List (String × α)}
    {k : String} (h : jsGetKey m k = none) : ∀ p ∈ m, p.1 ≠ k := by
  intro p hp hpk
  unfold jsGetKey at h
  have h' := Option.map_eq_none.mp h
  rw [List.find?_eq_none] at h'
  exact absurd (by simpa using hpk) (h' p hp)

theorem jsGetKey_none_of_hasKey_false {α : Type _} {m : List (String × α)}
    {k : String} (h : jsHasKey m k = false) : jsGetKey m k = none := by
  have hfind : m.find? (fun p => p.1 == k) = none := by
    rw [List.find?_eq_none]
    intro p hp
    unfold jsHasKey at h
    rw [List.any_eq_false] at h
    exact h p hp
  unfold jsGetKey
  rw [hfind]
  rfl

theorem jsSetKey_keys_nodup {α : Type _} {m : List (String × α)}
    {k : String} {v : α} (hn : (m.map Prod.fst).Nodup) :
    ((jsSetKey m k v).map Prod.fst).Nodup := by
  unfold jsSetKey
  by_cases h : jsHasKey m k
  · rw [if_pos h]
    have := jsSetKey_keys_replace m k v h
    unfold jsSetKey at this
    rw [if_pos h] at this
    rw [this]
    exact hn
  · rw [if_neg h]
    rw [List.map_append]
    simp only [List.map_cons, List.map_nil]
    rw [List.nodup_append]
    refine ⟨hn, List.nodup_singleton k, ?_⟩
    intro a ha hb
    simp only [List.mem_singleton] at hb
    obtain ⟨p, hp, hpa⟩ := List.mem_map.mp ha
    simp only [jsHasKey, List.any_eq_true, not_exists, not_and,
      Bool.not_eq_true] at h
    have := h p hp
    rw [hpa, hb] at this
    simp at this

theorem keyGroup_append_one (k : String) (seen : List RequestMetric)
    (m : RequestMetric) :
    keyGroup k (seen ++ [m]) =
      keyGroup k seen ++
        (if summaryKey m.method m.endpoint = k then [m] else []) := by
  unfold keyGroup
  rw [List.filter_append]
  congr 1
  by_cases h : summaryKey m.method m.endpoint = k <;> simp [h]


/-- Fold invariant for `metricsSummary`: after processing `seen`, every
map entry is stored under its own key, and its `count`, `successCount`
and `avg · count` agree with the key-group of `seen`; keys absent from
the map have an empty key-group. -/
def SummaryInv (summary : List (String × SummaryRow))
    (seen : List RequestMetric) : Prop :=
  (summary.map Prod.fst).Nodup ∧
  (∀ p ∈ summary, p.1 = summaryKey p.2.method p.2.endpoint) ∧
  (∀ p ∈ summary,
    keyGroup p.1 seen ≠ [] ∧
    p.2.count = ((keyGroup p.1 seen).length : ℚ) ∧
    p.2.successCount =
      (((keyGroup p.1 seen).filter (fun m => m.success)).length : ℚ) ∧
    p.2.avg * p.2.count = ((keyGroup p.1 seen).map (fun m => m.duration)).sum) ∧
  (∀ k, jsGetKey summary k = none → keyGroup k seen = [])

theorem summaryStep_inv {summary : List (String × SummaryRow)}
    {seen : List RequestMetric} (m : RequestMetric)
    (hinv : SummaryInv summary seen) :
    SummaryInv (summaryStep summary m) (seen ++ [m]) := by
  obtain ⟨hnodup, hkeys, hstats, hempty⟩ := hinv
  set k0 := summaryKey m.method m.endpoint with hk0
  set current := (jsGetKey summary k0).getD
    { endpoint := m.endpoint, method := m.method, avg := 0,
      count := 0, successCount := 0 } with hcur
  set c1 : SummaryRow := { current with count := current.count + 1 } with hc1
  set c2 : SummaryRow :=
    { c1 with avg := c1.avg + (m.duration - c1.avg) / c1.count } with hc2
  set c3 : SummaryRow := (if m.success then
    { c2 with successCount := c2.successCount + 1 } else c2) with hc3
  have hstep : summaryStep summary m = jsSetKey summary k0 c3 := rfl
  -- facts about the updated row, split on whether the key was present
  have hcount0 : current.count = ((keyGroup k0 seen).length : ℚ) := by
    cases hget : jsGetKey summary k0 with
    | none =>
        rw [hcur, hget, Option.getD_none, hempty k0 hget]
        simp
    | some row =>
        rw [hcur, hget, Option.getD_some]
        exact (hstats (k0, row) (jsGetKey_mem hget)).2.1
  have hsucc0 : current.successCount =
      (((keyGroup k0 seen).filter (fun m => m.success)).length : ℚ) := by
    cases hget : jsGetKey summary k0 with
    | none =>
        rw [hcur, hget, Option.getD_none, hempty k0 hget]
        simp
    | some row =>
        rw [hcur, hget, Option.getD_some]
        exact (hstats (k0, row) (jsGetKey_mem hget)).2.2.1
  have havg0 : current.avg * current.count =
      ((keyGroup k0 seen).map (fun m => m.duration)).sum := by
    cases hget : jsGetKey summary k0 with
    | none =>
        rw [hcur, hget, Option.getD_none, hempty k0 hget]
        simp
    | some row =>
        rw [hcur, hget, Option.getD_some]
        exact (hstats (k0, row) (jsGetKey_mem hget)).2.2.2
  have hmethod : c3.method = current.method := by
    rw [hc3]; by_cases h : m.success <;> simp [h, hc2, hc1]
  have hendpoint : c3.endpoint = current.endpoint := by
    rw [hc3]; by_cases h : m.success <;> simp [h, hc2, hc1]
  have hkey0 : k0 = summaryKey c3.method c3.endpoint := by
    rw [hmethod, hendpoint]
    cases hget : jsGetKey summary k0 with
    | none => rw [hcur, hget, Option.getD_none]
    | some row =>
        rw [hcur, hget, Option.getD_some]
        exact hkeys (k0, row) (jsGetKey_mem hget)
  have hcount1 : c1.count = ((keyGroup k0 seen).length : ℚ) + 1 := by
    rw [hc1]; simpa using congrArg (fun x => x + (1 : ℚ)) hcount0
  have hc1pos : c1.count ≠ 0 := by
    rw [hcount1]
    have : (0 : ℚ) ≤ ((keyGroup k0 seen).length : ℚ) := by positivity
    intro hzero
    nlinarith
  -- the group of k0 over seen ++ [m] gains exactly m
  have hgroup0 : keyGroup k0 (seen ++ [m]) = keyGroup k0 seen ++ [m] := by
    rw [keyGroup_append_one, if_pos rfl]
  -- the three statistics of the new row
  have hcount3 : c3.count = ((keyGroup k0 (seen ++ [m])).length : ℚ) := by
    have : c3.count = c1.count := by
      rw [hc3]; by_cases h : m.success <;> simp [h, hc2, hc1]
    rw [this, hcount1, hgroup0]
    simp
  have hsucc3 : c3.successCount =
      (((keyGroup k0 (seen ++ [m])).filter (fun m => m.success)).length : ℚ) := by
    rw [hgroup0, List.filter_append]
    by_cases h : m.success
    · have : c3.successCount = c2.successCount + 1 := by
        rw [hc3, if_pos h]
      rw [this, hc2, hc1]
      simp only [hsucc0, h]
      rw [show List.filter (fun m => m.success) [m] = [m] by simp [h]]
      simp
    · have : c3.successCount = c2.successCount := by
        rw [hc3, if_neg h]
      rw [this, hc2, hc1]
      simp only [hsucc0]
      have : (List.filter (fun m => m.success) [m]) = [] := by
        simp [List.filter, h]
      rw [this]
      simp
  have havg3 : c3.avg * c3.count =
      ((keyGroup k0 (seen ++ [m])).map (fun m => m.duration)).sum := by
    have h3avg : c3.avg = c1.avg + (m.duration - c1.avg) / c1.count := by
      rw [hc3]; by_cases h : m.success <;> simp [h, hc2, hc1]
    have h3cnt : c3.count = c1.count := by
      rw [hc3]; by_cases h : m.success <;> simp [h, hc2, hc1]
    have h1avg : c1.avg = current.avg := by rw [hc1]
    rw [h3avg, h3cnt, hgroup0, List.map_append, List.sum_append]
    have expand : (c1.avg + (m.duration - c1.avg) / c1.count) * c1.count
        = c1.avg * (c1.count - 1) + m.duration := by
      field_simp
      ring
    rw [expand, h1avg, hc1]
    have : current.count + 1 - 1 = current.count := by ring
    simp only [this]
    rw [havg0]
    simp
  -- assemble the invariant for the updated map
  refine ⟨jsSetKey_keys_nodup hnodup, ?_, ?_, ?_⟩
  · intro p hp
    rw [hstep] at hp
    rcases jsSetKey_mem_strong hp with h | ⟨hmem, -⟩
    · rw [h]
      exact hkey0
    · exact hkeys p hmem
  · intro p hp
    rw [hstep] at hp
    rcases jsSetKey_mem_strong hp with h | ⟨hmem, hne⟩
    · rw [h]
      refine ⟨?_, hcount3, hsucc3, havg3⟩
      rw [hgroup0]
      simp
    · have hcond : ¬ (summaryKey m.method m.endpoint = p.1) := by
        rw [← hk0]
        exact fun hh => hne hh.symm
      have hgrp : keyGroup p.1 (seen ++ [m]) = keyGroup p.1 seen := by
        rw [keyGroup_append_one, if_neg hcond]
        simp
      rw [hgrp]
      exact hstats p hmem
  · intro k hget
    have hne : k ≠ k0 := by
      intro hkk
      rw [hkk, hstep, jsGetKey_set_self] at hget
      exact Option.noConfusion hget
    rw [hstep, jsGetKey_set_other _ _ _ _ hne] at hget
    have hcond : ¬ (summaryKey m.method m.endpoint = k) := by
      rw [← hk0]
      exact fun hh => hne hh.symm
    rw [keyGroup_append_one, if_neg hcond, hempty k hget]
    simp


theorem foldl_summaryStep_inv :
    ∀ (rest : List RequestMetric) (summary : List (String × SummaryRow))
      (seen : List RequestMetric), SummaryInv summary seen →
      SummaryInv (rest.foldl summaryStep summary) (seen ++ rest) := by
  intro rest
  induction rest with
  | nil => intro summary seen h; simpa using h
  | cons m rest ih =>
      intro summary seen h
      rw [List.foldl_cons]
      have h1 := summaryStep_inv m h
      have h2 := ih _ _ h1
      rw [List.append_assoc, List.singleton_append] at h2
      exact h2

theorem summaryInv_nil : SummaryInv [] [] := by
  refine ⟨by simp, by simp, by simp, ?_⟩
  intro k _
  rfl

/-- C9 (amended): every row of `metricsSummary`, taken over the group of
metrics that share its `Map` key `` `${method} ${endpoint}` ``, has
`count` equal to the group size, `successCount` equal to the number of
successes in the group, and `avg` — maintained by the incremental update
`avg += (duration - avg) / count` — equal in exact arithmetic to the
arithmetic mean of the group's durations.  (Grouping is by the
concatenated key string, not by the `(method, endpoint)` pair: two
distinct pairs can collide on the same key.) -/
theorem metricsSummary_row_stats (metrics : List RequestMetric) :
    ∀ row ∈ metricsSummary metrics,
      keyGroup (summaryKey row.method row.endpoint) metrics ≠ [] ∧
      row.count =
        ((keyGroup (summaryKey row.method row.endpoint) metrics).length : ℚ) ∧
      row.successCount =
        (((keyGroup (summaryKey row.method row.endpoint) metrics).filter
          (fun m => m.success)).length : ℚ) ∧
      row.avg =
        ((keyGroup (summaryKey row.method row.endpoint) metrics).map
            (fun m => m.duration)).sum /
          ((keyGroup (summaryKey row.method row.endpoint) metrics).length : ℚ) := by
  intro row hrow
  have hinv := foldl_summaryStep_inv metrics [] [] summaryInv_nil
  rw [List.nil_append] at hinv
  obtain ⟨-, hkeys, hstats, -⟩ := hinv
  obtain ⟨p, hp, hsnd⟩ := List.mem_map.mp hrow
  have hkey : p.1 = summaryKey row.method row.endpoint := by
    rw [← hsnd]
    exact hkeys p hp
  obtain ⟨hne, hcount, hsucc, havg⟩ := hstats p hp
  rw [hkey] at hne hcount hsucc havg
  rw [hsnd] at hcount hsucc havg
  refine ⟨hne, hcount, hsucc, ?_⟩
  have hlen : ((keyGroup (summaryKey row.method row.endpoint) metrics).length : ℚ) ≠ 0 := by
    have : (keyGroup (summaryKey row.method row.endpoint) metrics).length ≠ 0 :=
      fun h0 => hne (List.length_eq_zero.mp h0)
    exact_mod_cast this
  rw [eq_div_iff hlen, ← hcount]
  exact havg

/-- A concrete metric to exercise the summary theorem. -/
def sampleMetric : RequestMetric :=
  { id := "m1", endpoint := "health", method := "GET", duration := 10,
    status := 200, success := true, timestamp := "t", traceId := "tr" }

/-- The (unnormalised) row `metricsSummary [sampleMetric]` produces. -/
def sampleRow : SummaryRow :=
  { endpoint := "health", method := "GET",
    avg := 0 + ((10 : ℚ) - 0) / (0 + 1), count := (0 : ℚ) + 1,
    successCount := (0 : ℚ) + 1 }

theorem metricsSummary_row_stats_witness :
    sampleRow ∈ metricsSummary [sampleMetric] ∧
    sampleRow.count =
      ((keyGroup (summaryKey sampleRow.method sampleRow.endpoint)
        [sampleMetric]).length : ℚ) ∧
    sampleRow.avg =
      ((keyGroup (summaryKey sampleRow.method sampleRow.endpoint)
          [sampleMetric]).map (fun m => m.duration)).sum /
        ((keyGroup (summaryKey sampleRow.method sampleRow.endpoint)
          [sampleMetric]).length : ℚ) :=
  have hmem : sampleRow ∈ metricsSummary [sampleMetric] :=
    List.mem_singleton.mpr rfl
  ⟨hmem, (metricsSummary_row_stats [sampleMetric] sampleRow hmem).2.1,
    (metricsSummary_row_stats [sampleMetric] sampleRow hmem).2.2.2⟩

/-- Two metrics with distinct `(method, endpoint)` pairs that collide on
the concatenated `Map` key `"a b c"`. -/
def collisionMetricA : RequestMetric :=
  { id := "1", endpoint := "c", method := "a b", duration := 10,
    status := 200, success := true, timestamp := "t", traceId := "x" }

def collisionMetricB : RequestMetric :=
  { id := "2", endpoint := "b c", method := "a", duration := 20,
    status := 200, success := true, timestamp := "t", traceId := "y" }

/-- Claim C9, as stated, fails: grouping is by the concatenated string
`` `${method} ${endpoint}` ``, so the pairs `("a b", "c")` and
`("a", "b c")` fall into one row whose `count` is 2, while the
`(method, endpoint)` group of the row's own pair contains exactly one
metric. -/
theorem metricsSummary_pair_group_counterexample :
    metricsSummary [collisionMetricA, collisionMetricB] =
      [{ endpoint := "c", method := "a b", avg := 15, count := 2,
         successCount := 2 }] ∧
    ([collisionMetricA, collisionMetricB].filter
      (fun m => m.method == "a b" && m.endpoint == "c")).length = 1 ∧
    (2 : ℚ) ≠ (1 : ℚ) := by
  refine ⟨?_, by decide, by norm_num⟩
  rw [show metricsSummary [collisionMetricA, collisionMetricB] =
    [{ endpoint := "c", method := "a b",
       avg := (0 + ((10 : ℚ) - 0) / (0 + 1)) +
         ((20 : ℚ) - (0 + ((10 : ℚ) - 0) / (0 + 1))) / ((0 + 1) + 1),
       count := ((0 : ℚ) + 1) + 1,
       successCount := ((0 : ℚ) + 1) + 1 }] from rfl]
  norm_num


end Frontend

namespace Backend

/-! ### Job registry and Initiate (spec-modelled)

The backend job service (registry, idempotency index, queue) is not part
of the shipped sources — the repository contains only the frontend — so
this section models it from the specification (§4.3 registry contract,
§4.7 Initiate, P1). -/

/-- Modelled from the spec: the job record fields Initiate and the
idempotency index consult (spec §3, §4.3).  Times are wall-clock numbers;
a record is unexpired at `now` while `now ≤ expiresAt`. -/
structure JobRecord where
  jobId : String
  userId : Option String
  clientRequestId : Option String
  createdAt : ℚ
  expiresAt : ℚ
  deriving DecidableEq, Repr

/-- The idempotency-key match (spec §4.3): same non-empty
`clientRequestId`, same `userId`, and the record is unexpired. -/
def keyMatches (userId : Option String) (crid : String) (now : ℚ)
    (r : JobRecord) : Bool :=
  r.clientRequestId == some crid && r.userId == userId &&
    decide (now ≤ r.expiresAt)

/-- The key alone, ignoring expiry. -/
def sameKey (userId : Option String) (crid : String) (r : JobRecord) : Bool :=
  r.clientRequestId == some crid && r.userId == userId

structure InitiateResult where
  jobId : String
  registry : List JobRecord
  queue : List String
  deriving DecidableEq, Repr

/-- Modelled from the spec: `Initiate` (spec §4.7, §4.3 `insert`).  If
`(userId, clientRequestId)` maps to an existing unexpired record, its
`jobId` is returned and nothing is inserted or enqueued; otherwise a
fresh record with `expiresAt = now + jobTtl` is stored and its id
enqueued. -/
def initiate (registry : List JobRecord) (queue : List String)
    (userId : Option String) (clientRequestId : Option String)
    (now jobTtl : ℚ) (newId : String) : InitiateResult :=
  let dup := match clientRequestId with
    | some crid => registry.find? (keyMatches userId crid now)
    | none => none
  match dup with
  | some r => { jobId := r.jobId, registry := registry, queue := queue }
  | none =>
      let record : JobRecord :=
        { jobId := newId, userId := userId,
          clientRequestId := clientRequestId, createdAt := now,
          expiresAt := now + jobTtl }
      { jobId := newId, registry := registry ++ [record],
        queue := queue ++ [newId] }

/-- The record Initiate creates on a miss (spec §4.7:
`status = queued`, `createdAt = now`, `expiresAt = now + jobTtl`). -/
def freshRecord (userId : Option String) (crid : String) (now jobTtl : ℚ)
    (newId : String) : JobRecord :=
  { jobId := newId, userId := userId, clientRequestId := some crid,
    createdAt := now, expiresAt := now + jobTtl }

/-- C5 (P1 — idempotency): two Initiate calls with equal
`(userId, clientRequestId)`, the second submitted before the first job
expires, return the same `jobId`; the second call changes neither the
registry nor the queue (the duplicate is never enqueued), and exactly one
record with that key exists afterwards. -/
theorem initiate_idempotent (registry₀ : List JobRecord)
    (queue₀ : List String) (userId : Option String) (crid : String)
    (now₁ now₂ jobTtl : ℚ) (newId₁ newId₂ : String)
    (hnone : registry₀.filter (sameKey userId crid) = [])
    (hbefore : now₂ ≤ now₁ + jobTtl) :
    (initiate (initiate registry₀ queue₀ userId (some crid) now₁ jobTtl
        newId₁).registry
      (initiate registry₀ queue₀ userId (some crid) now₁ jobTtl
        newId₁).queue
      userId (some crid) now₂ jobTtl newId₂).jobId =
      (initiate registry₀ queue₀ userId (some crid) now₁ jobTtl
        newId₁).jobId ∧
    (initiate (initiate registry₀ queue₀ userId (some crid) now₁ jobTtl
        newId₁).registry
      (initiate registry₀ queue₀ userId (some crid) now₁ jobTtl
        newId₁).queue
      userId (some crid) now₂ jobTtl newId₂).registry =
      (initiate registry₀ queue₀ userId (some crid) now₁ jobTtl
        newId₁).registry ∧
    (initiate (initiate registry₀ queue₀ userId (some crid) now₁ jobTtl
        newId₁).registry
      (initiate registry₀ queue₀ userId (some crid) now₁ jobTtl
        newId₁).queue
      userId (some crid) now₂ jobTtl newId₂).queue =
      (initiate registry₀ queue₀ userId (some crid) now₁ jobTtl
        newId₁).queue ∧
    ((initiate (initiate registry₀ queue₀ userId (some crid) now₁ jobTtl
        newId₁).registry
      (initiate registry₀ queue₀ userId (some crid) now₁ jobTtl
        newId₁).queue
      userId (some crid) now₂ jobTtl newId₂).registry.filter
        (sameKey userId crid)).length = 1 := by
  have hfilter_none : ∀ now : ℚ,
      registry₀.find? (keyMatches userId crid now) = none := by
    intro now
    rw [List.find?_eq_none]
    intro r hr hmatch
    have hsame : sameKey userId crid r = true := by
      unfold keyMatches at hmatch
      unfold sameKey
      simp only [Bool.and_eq_true] at hmatch ⊢
      exact hmatch.1
    have hmem : r ∈ registry₀.filter (sameKey userId crid) :=
      List.mem_filter.mpr ⟨hr, hsame⟩
    rw [hnone] at hmem
    simp at hmem
  have hfirst : initiate registry₀ queue₀ userId (some crid) now₁ jobTtl
      newId₁ =
      { jobId := newId₁,
        registry := registry₀ ++ [freshRecord userId crid now₁ jobTtl newId₁],
        queue := queue₀ ++ [newId₁] } := by
    simp [initiate, hfilter_none now₁, freshRecord]
  have hrecmatch : keyMatches userId crid now₂
      (freshRecord userId crid now₁ jobTtl newId₁) = true := by
    simp [keyMatches, freshRecord, hbefore]
  have hsamekey : sameKey userId crid
      (freshRecord userId crid now₁ jobTtl newId₁) = true := by
    simp [sameKey, freshRecord]
  have hfind₂ : (registry₀ ++
      [freshRecord userId crid now₁ jobTtl newId₁]).find?
        (keyMatches userId crid now₂) =
      some (freshRecord userId crid now₁ jobTtl newId₁) := by
    rw [List.find?_append, hfilter_none now₂]
    simp [List.find?, hrecmatch]
  have hsecond : initiate
      (registry₀ ++ [freshRecord userId crid now₁ jobTtl newId₁])
      (queue₀ ++ [newId₁]) userId (some crid) now₂ jobTtl newId₂ =
      { jobId := (freshRecord userId crid now₁ jobTtl newId₁).jobId,
        registry := registry₀ ++ [freshRecord userId crid now₁ jobTtl newId₁],
        queue := queue₀ ++ [newId₁] } := by
    simp [initiate, hfind₂]
  rw [hfirst]
  dsimp only
  rw [hsecond]
  refine ⟨?_, rfl, rfl, ?_⟩
  · simp [freshRecord]
  · simp [List.filter_append, hnone, hsamekey]

theorem initiate_idempotent_witness :
    (initiate (initiate [] [] (some "u1") (some "abc") 0 3600000
        "j1").registry
      (initiate [] [] (some "u1") (some "abc") 0 3600000 "j1").queue
      (some "u1") (some "abc") 50 3600000 "j2").jobId =
      (initiate [] [] (some "u1") (some "abc") 0 3600000 "j1").jobId ∧
    (initiate (initiate [] [] (some "u1") (some "abc") 0 3600000
        "j1").registry
      (initiate [] [] (some "u1") (some "abc") 0 3600000 "j1").queue
      (some "u1") (some "abc") 50 3600000 "j2").registry =
      (initiate [] [] (some "u1") (some "abc") 0 3600000 "j1").registry ∧
    (initiate (initiate [] [] (some "u1") (some "abc") 0 3600000
        "j1").registry
      (initiate [] [] (some "u1") (some "abc") 0 3600000 "j1").queue
      (some "u1") (some "abc") 50 3600000 "j2").queue =
      (initiate [] [] (some "u1") (some "abc") 0 3600000 "j1").queue ∧
    ((initiate (initiate [] [] (some "u1") (some "abc") 0 3600000
        "j1").registry
      (initiate [] [] (some "u1") (some "abc") 0 3600000 "j1").queue
      (some "u1") (some "abc") 50 3600000 "j2").registry.filter
        (sameKey (some "u1") "abc")).length = 1 :=
  initiate_idempotent [] [] (some "u1") "abc" 0 50 3600000 "j1" "j2" rfl
    (by norm_num)

end Backend

namespace Frontend
end Frontend
